/-
  Verification of the certbot-manual-freedns challenge helper (Go) against its
  natural-language specification.

  The repository's main.go contains two near-duplicate variants of the
  program (an older revision is appended to the file after a separator).  The
  primary (current, unit-tested) variant is embedded under the source names
  (`getZoneFor`, `setup`, `waitForPropagation`, `Create`, `Delete`,
  `runChallenger`); definitions from the older appended variant carry an
  `Old` suffix (`getZoneForOld`, `waitForPropagationOld`, `DeleteOld`,
  `CreateOld`).

  Go strings are modelled as lists of characters (`Str`).  Calls to the
  external collaborators (the FreeDNS `DnsHost` API and the TXT resolver) are
  modelled by oracles collected in `ChallengeEnv`: each field gives the result
  of the corresponding external call (indexed by invocation number where a
  method can be called more than once in one run).  Context cancellation
  (`ctx.Err()` / `ctx.Done()`) is modelled by `Option CtxErr` oracles, one per
  check point in the source.  Operations additionally return the list of
  `DnsHost` calls they issued, in order, so that claims about which provider
  calls happen (and in what order) are statable.
-/
import Mathlib

/-- Go strings, modelled as lists of characters. -/
abbrev Str := List Char

/-- Embed a Lean string literal as a `Str`. -/
def str (s : String) : Str := s.data

/-- Go `strings.HasSuffix(s, suf)`. -/
def goHasSuffix (s suf : Str) : Bool := suf.isSuffixOf s

/-- Go `strings.TrimSuffix(s, suf)`: removes the trailing `suf` if present,
otherwise returns `s` unchanged. -/
def goTrimSuffix (s suf : Str) : Str :=
  if goHasSuffix s suf then s.take (s.length - suf.length) else s

/-- `getZoneFor`'s loop body, primary variant (main.go line 55): keep the
current zone unless `z` is a suffix of `domain` with `len(z) >= len(zone)`. -/
def getZoneForLoop (domain : Str) : Str → List Str → Str
  | zone, [] => zone
  | zone, z :: rest =>
      getZoneForLoop domain
        (if goHasSuffix domain z && decide (zone.length ≤ z.length) then z else zone) rest

/-- `getZoneFor` (primary variant, main.go lines 55-63): longest-suffix zone
match, starting from the empty string sentinel. -/
def getZoneFor (zones : List Str) (domain : Str) : Str :=
  getZoneForLoop domain [] zones

/-- `getZoneFor`'s loop body in the older appended variant (main.go line 308):
identical except the comparison is strict (`len(z) > len(zone)`). -/
def getZoneForOldLoop (domain : Str) : Str → List Str → Str
  | zone, [] => zone
  | zone, z :: rest =>
      getZoneForOldLoop domain
        (if goHasSuffix domain z && decide (zone.length < z.length) then z else zone) rest

/-- `getZoneFor` of the older appended variant (main.go lines 308-316). -/
def getZoneForOld (zones : List Str) (domain : Str) : Str :=
  getZoneForOldLoop domain [] zones

/- ### Helper lemmas about suffixes and the zone-selection loops -/

theorem goHasSuffix_iff {s suf : Str} : goHasSuffix s suf = true ↔ suf <:+ s := by
  simp [goHasSuffix, List.isSuffixOf_iff_suffix]

/-- Two suffixes of the same list that have the same length are equal. -/
theorem suffix_eq_of_length {s₁ s₂ d : Str} (h₁ : s₁ <:+ d) (h₂ : s₂ <:+ d)
    (hl : s₁.length = s₂.length) : s₁ = s₂ := by
  obtain ⟨t₁, ht₁⟩ := h₁
  obtain ⟨t₂, ht₂⟩ := h₂
  have hd : t₁ ++ s₁ = t₂ ++ s₂ := ht₁.trans ht₂.symm
  have hlen : t₁.length = t₂.length := by
    have := congrArg List.length hd
    simp only [List.length_append] at this
    omega
  exact List.append_inj_right hd hlen

theorem getZoneForLoop_cases (domain : Str) :
    ∀ (zs : List Str) (acc : Str), getZoneForLoop domain acc zs = acc ∨
      (getZoneForLoop domain acc zs ∈ zs ∧ getZoneForLoop domain acc zs <:+ domain) := by
  intro zs
  induction zs with
  | nil => intro acc; left; rfl
  | cons z rest ih =>
      intro acc
      simp only [getZoneForLoop]
      by_cases hc : (goHasSuffix domain z && decide (acc.length ≤ z.length)) = true
      · rw [if_pos hc]
        rcases ih z with h | ⟨hmem, hsuf⟩
        · right
          refine ⟨by simp [h], ?_⟩
          rw [h]
          exact goHasSuffix_iff.mp (by simpa using (Bool.and_eq_true ..|>.mp hc).1)
        · right; exact ⟨List.mem_cons_of_mem _ hmem, hsuf⟩
      · rw [if_neg hc]
        rcases ih acc with h | ⟨hmem, hsuf⟩
        · left; exact h
        · right; exact ⟨List.mem_cons_of_mem _ hmem, hsuf⟩

theorem getZoneForLoop_length_mono (domain : Str) :
    ∀ (zs : List Str) (acc : Str), acc.length ≤ (getZoneForLoop domain acc zs).length := by
  intro zs
  induction zs with
  | nil => intro acc; simp [getZoneForLoop]
  | cons z rest ih =>
      intro acc
      simp only [getZoneForLoop]
      by_cases hc : (goHasSuffix domain z && decide (acc.length ≤ z.length)) = true
      · rw [if_pos hc]
        have hle : acc.length ≤ z.length := by
          have := (Bool.and_eq_true ..|>.mp hc).2
          simpa using this
        exact hle.trans (ih z)
      · rw [if_neg hc]; exact ih acc

theorem getZoneForLoop_ge (domain : Str) :
    ∀ (zs : List Str) (acc : Str), ∀ z ∈ zs, z <:+ domain →
      z.length ≤ (getZoneForLoop domain acc zs).length := by
  intro zs
  induction zs with
  | nil => intro acc z hz; exact absurd hz (List.not_mem_nil z)
  | cons w rest ih =>
      intro acc z hz hsuf
      simp only [getZoneForLoop]
      rcases List.mem_cons.mp hz with rfl | hz'
      · by_cases hc : (goHasSuffix domain z && decide (acc.length ≤ z.length)) = true
        · rw [if_pos hc]; exact getZoneForLoop_length_mono domain rest z
        · rw [if_neg hc]
          have hns : goHasSuffix domain z = true := goHasSuffix_iff.mpr hsuf
          have : ¬ acc.length ≤ z.length := by
            intro hle
            exact hc (by simp [hns, hle])
          have hlt : z.length ≤ acc.length := le_of_not_le this
          exact hlt.trans (getZoneForLoop_length_mono domain rest acc)
      · exact ih _ z hz' hsuf

theorem getZoneForOldLoop_cases (domain : Str) :
    ∀ (zs : List Str) (acc : Str), getZoneForOldLoop domain acc zs = acc ∨
      (getZoneForOldLoop domain acc zs ∈ zs ∧ getZoneForOldLoop domain acc zs <:+ domain) := by
  intro zs
  induction zs with
  | nil => intro acc; left; rfl
  | cons z rest ih =>
      intro acc
      simp only [getZoneForOldLoop]
      by_cases hc : (goHasSuffix domain z && decide (acc.length < z.length)) = true
      · rw [if_pos hc]
        rcases ih z with h | ⟨hmem, hsuf⟩
        · right
          refine ⟨by simp [h], ?_⟩
          rw [h]
          exact goHasSuffix_iff.mp (by simpa using (Bool.and_eq_true ..|>.mp hc).1)
        · right; exact ⟨List.mem_cons_of_mem _ hmem, hsuf⟩
      · rw [if_neg hc]
        rcases ih acc with h | ⟨hmem, hsuf⟩
        · left; exact h
        · right; exact ⟨List.mem_cons_of_mem _ hmem, hsuf⟩

theorem getZoneForOldLoop_length_mono (domain : Str) :
    ∀ (zs : List Str) (acc : Str), acc.length ≤ (getZoneForOldLoop domain acc zs).length := by
  intro zs
  induction zs with
  | nil => intro acc; simp [getZoneForOldLoop]
  | cons z rest ih =>
      intro acc
      simp only [getZoneForOldLoop]
      by_cases hc : (goHasSuffix domain z && decide (acc.length < z.length)) = true
      · rw [if_pos hc]
        have hle : acc.length < z.length := by
          have := (Bool.and_eq_true ..|>.mp hc).2
          simpa using this
        exact hle.le.trans (ih z)
      · rw [if_neg hc]; exact ih acc

theorem getZoneForOldLoop_ge (domain : Str) :
    ∀ (zs : List Str) (acc : Str), ∀ z ∈ zs, z <:+ domain →
      z.length ≤ (getZoneForOldLoop domain acc zs).length := by
  intro zs
  induction zs with
  | nil => intro acc z hz; exact absurd hz (List.not_mem_nil z)
  | cons w rest ih =>
      intro acc z hz hsuf
      simp only [getZoneForOldLoop]
      rcases List.mem_cons.mp hz with rfl | hz'
      · by_cases hc : (goHasSuffix domain z && decide (acc.length < z.length)) = true
        · rw [if_pos hc]; exact getZoneForOldLoop_length_mono domain rest z
        · rw [if_neg hc]
          have hns : goHasSuffix domain z = true := goHasSuffix_iff.mpr hsuf
          have : ¬ acc.length < z.length := by
            intro hle
            exact hc (by simp [hns, hle])
          have hlt : z.length ≤ acc.length := by omega
          exact hlt.trans (getZoneForOldLoop_length_mono domain rest acc)
      · exact ih _ z hz' hsuf

theorem getZoneForLoop_no_match (domain : Str) :
    ∀ (zs : List Str) (acc : Str), (∀ z ∈ zs, ¬ z <:+ domain) →
      getZoneForLoop domain acc zs = acc := by
  intro zs
  induction zs with
  | nil => intro acc _; rfl
  | cons z rest ih =>
      intro acc hno
      simp only [getZoneForLoop]
      have hz : goHasSuffix domain z = false := by
        rw [Bool.eq_false_iff]
        intro hs
        exact hno z (List.mem_cons_self z rest) (goHasSuffix_iff.mp hs)
      rw [hz]
      simpa using ih acc fun w hw => hno w (List.mem_cons_of_mem _ hw)

theorem getZoneForOldLoop_no_match (domain : Str) :
    ∀ (zs : List Str) (acc : Str), (∀ z ∈ zs, ¬ z <:+ domain) →
      getZoneForOldLoop domain acc zs = acc := by
  intro zs
  induction zs with
  | nil => intro acc _; rfl
  | cons z rest ih =>
      intro acc hno
      simp only [getZoneForOldLoop]
      have hz : goHasSuffix domain z = false := by
        rw [Bool.eq_false_iff]
        intro hs
        exact hno z (List.mem_cons_self z rest) (goHasSuffix_iff.mp hs)
      rw [hz]
      simpa using ih acc fun w hw => hno w (List.mem_cons_of_mem _ hw)

/-- C1: `getZoneFor` (in both variants) returns the element of the zone set
that is a string suffix of the domain with maximal length among all suffix
elements, and returns the empty-string `NotFound` sentinel when no element is
a suffix of the domain. -/
theorem getZoneFor_longest_suffix_or_notFound (zones : List Str) (domain z : Str) :
    (z ∈ zones → z <:+ domain →
      (∀ z' ∈ zones, z' <:+ domain → z'.length ≤ z.length) →
      getZoneFor zones domain = z ∧ getZoneForOld zones domain = z) ∧
    ((∀ z' ∈ zones, ¬ z' <:+ domain) →
      getZoneFor zones domain = [] ∧ getZoneForOld zones domain = []) := by
  constructor
  · intro hmem hsuf hmax
    constructor
    · show getZoneForLoop domain [] zones = z
      have hge := getZoneForLoop_ge domain zones [] z hmem hsuf
      rcases getZoneForLoop_cases domain zones [] with h | ⟨hm, hs⟩
      · rw [h] at hge ⊢
        simp only [List.length_nil, Nat.le_zero, List.length_eq_zero] at hge
        exact hge.symm
      · have hle := hmax _ hm hs
        exact suffix_eq_of_length hs hsuf (le_antisymm hle hge)
    · show getZoneForOldLoop domain [] zones = z
      have hge := getZoneForOldLoop_ge domain zones [] z hmem hsuf
      rcases getZoneForOldLoop_cases domain zones [] with h | ⟨hm, hs⟩
      · rw [h] at hge ⊢
        simp only [List.length_nil, Nat.le_zero, List.length_eq_zero] at hge
        exact hge.symm
      · have hle := hmax _ hm hs
        exact suffix_eq_of_length hs hsuf (le_antisymm hle hge)
  · intro hno
    exact ⟨getZoneForLoop_no_match domain zones [] hno,
           getZoneForOldLoop_no_match domain zones [] hno⟩

/-- Witness for C1 on the spec's own example: zones
`{s.example.com, example.com}` and domain `s.example.com` resolve to
`s.example.com`, not `example.com`. -/
theorem getZoneFor_longest_suffix_or_notFound_witness :
    getZoneFor [str "s.example.com", str "example.com"] (str "s.example.com")
      = str "s.example.com" ∧
    getZoneForOld [str "s.example.com", str "example.com"] (str "s.example.com")
      = str "s.example.com" :=
  (getZoneFor_longest_suffix_or_notFound
      [str "s.example.com", str "example.com"] (str "s.example.com")
      (str "s.example.com")).1
    (by decide)
    (by decide)
    (by decide)

/- ### Record-name derivation (primary variant, main.go lines 98-102) -/

/-- The literal ACME DNS-01 label. -/
def acmeChallengeLabel : Str := str "_acme-challenge"

/-- Record-name derivation performed by `setup` (main.go lines 98-101):
`_acme-challenge` when the resolved zone equals the challenge domain, else
`_acme-challenge.` followed by the domain with the trailing `.<zone>`
suffix trimmed. -/
def recordNameFor (challengeDomain zone : Str) : Str :=
  if zone = challengeDomain then acmeChallengeLabel
  else acmeChallengeLabel ++ '.' :: goTrimSuffix challengeDomain ('.' :: zone)

/-- Record FQDN derivation (main.go line 102): `recordName + "." + zone`. -/
def recordFQDNFor (challengeDomain zone : Str) : Str :=
  recordNameFor challengeDomain zone ++ '.' :: zone

theorem goTrimSuffix_append (p s : Str) : goTrimSuffix (p ++ s) s = p := by
  have hs : goHasSuffix (p ++ s) s = true :=
    goHasSuffix_iff.mpr ⟨p, rfl⟩
  simp only [goTrimSuffix, hs, if_true, List.length_append]
  rw [Nat.add_sub_cancel]
  exact List.take_left p s

/-- C2: for a challenge domain `D` and resolved zone `Z`: if `Z = D` the
record name is exactly `_acme-challenge` and the FQDN is
`_acme-challenge.<Z>`; if `D` decomposes as `P ++ "." ++ Z` the record name
is `_acme-challenge.<P>` (the domain with the trailing `.<Z>` stripped) and
the FQDN is the record name followed by `"." ++ Z`; in every case the FQDN
is the record name followed by `"." ++ Z`. -/
theorem recordName_derivation (challengeDomain zone : Str) :
    (recordFQDNFor challengeDomain zone
        = recordNameFor challengeDomain zone ++ '.' :: zone) ∧
    (zone = challengeDomain →
      recordNameFor challengeDomain zone = acmeChallengeLabel ∧
      recordFQDNFor challengeDomain zone = acmeChallengeLabel ++ '.' :: zone) ∧
    (∀ p : Str, challengeDomain = p ++ '.' :: zone →
      recordNameFor challengeDomain zone = acmeChallengeLabel ++ '.' :: p ∧
      recordFQDNFor challengeDomain zone
        = acmeChallengeLabel ++ '.' :: p ++ '.' :: zone) ∧
    (zone ≠ challengeDomain →
      recordNameFor challengeDomain zone
        = acmeChallengeLabel ++ '.' :: goTrimSuffix challengeDomain ('.' :: zone)) := by
  refine ⟨rfl, ?_, ?_, ?_⟩
  · intro heq
    constructor
    · simp [recordNameFor, heq]
    · simp [recordFQDNFor, recordNameFor, heq]
  · intro p hp
    have hne : zone ≠ challengeDomain := by
      intro h
      have := congrArg List.length hp
      rw [← h] at this
      simp only [List.length_append, List.length_cons] at this
      omega
    have hname : recordNameFor challengeDomain zone
        = acmeChallengeLabel ++ '.' :: p := by
      rw [recordNameFor, if_neg hne, hp]
      have : p ++ '.' :: zone = p ++ ('.' :: zone) := rfl
      rw [this, goTrimSuffix_append]
    refine ⟨hname, ?_⟩
    rw [recordFQDNFor, hname]
  · intro hne
    rw [recordNameFor, if_neg hne]

/-- Witness for C2 on the spec's examples: domain `s.example.com` in zone
`example.com` gives record name `_acme-challenge.s` and FQDN
`_acme-challenge.s.example.com`; domain `example.com` in zone `example.com`
gives record name `_acme-challenge`. -/
theorem recordName_derivation_witness :
    recordNameFor (str "s.example.com") (str "example.com")
        = str "_acme-challenge.s" ∧
    recordFQDNFor (str "s.example.com") (str "example.com")
        = str "_acme-challenge.s.example.com" ∧
    recordNameFor (str "example.com") (str "example.com")
        = str "_acme-challenge" := by
  have h := (recordName_derivation (str "s.example.com") (str "example.com")).2.2.1
      (str "s") (by decide)
  have h2 := (recordName_derivation (str "example.com") (str "example.com")).2.1 rfl
  refine ⟨?_, ?_, ?_⟩
  · rw [h.1]; decide
  · rw [h.2]; decide
  · rw [h2.1]; decide

/- ### Propagation poller (primary variant, main.go lines 107-156) -/

/-- Result of `ctx.Err()` once a Go context is done: cancellation or
deadline expiry. -/
inductive CtxErr
  | canceled
  | deadlineExceeded
deriving DecidableEq

/-- The error message carried by `ctx.Err()`. -/
def CtxErr.msg : CtxErr → Str
  | canceled => str "context canceled"
  | deadlineExceeded => str "context deadline exceeded"

/-- The timeout error built at main.go line 155. -/
def timedOutMessage : Str := str "timed out waiting for txt record"

/-- Classification of one poll attempt (main.go lines 132-143): the attempt
is terminal exactly when the lookup succeeded with a single record equal to
the challenge value; every error outcome and every other record set falls
through to the retry wait. -/
def attemptConfirms (value : Str) (r : Except Str (List Str)) : Bool :=
  match r with
  | .error _ => false
  | .ok records => records.length == 1 && records.headI == value

/-- The poll loop of `waitForPropagation` (main.go lines 130-153), from
attempt index `i` with `fuel` attempts remaining.  `lookup i` is the result
of the `LookupTXT` call of attempt `i`; `ctxDone i` tells whether the
overall context fired during the retry wait that follows attempt `i`
(the `select` at lines 147-152).  When the fuel runs out the loop returns
the timeout error (line 155). -/
def waitFromAttempt (value : Str) (lookup : Nat → Except Str (List Str))
    (ctxDone : Nat → Option CtxErr) : Nat → Nat → Option Str
  | 0, _ => some timedOutMessage
  | fuel + 1, i =>
      if attemptConfirms value (lookup i) then none
      else
        match ctxDone i with
        | some e => some e.msg
        | none => waitFromAttempt value lookup ctxDone fuel (i + 1)

/-- `waitForPropagation` (primary variant, main.go lines 107-156): 30
attempts starting at attempt 0; returns `none` for success, otherwise the
error message. -/
def waitForPropagation (value : Str) (lookup : Nat → Except Str (List Str))
    (ctxDone : Nat → Option CtxErr) : Option Str :=
  waitFromAttempt value lookup ctxDone 30 0

/-- The poll loop of the older appended variant (main.go lines 341-364):
identical, except that exhausting the attempts returns nil (line 366). -/
def waitFromAttemptOld (value : Str) (lookup : Nat → Except Str (List Str))
    (ctxDone : Nat → Option CtxErr) : Nat → Nat → Option Str
  | 0, _ => none
  | fuel + 1, i =>
      if attemptConfirms value (lookup i) then none
      else
        match ctxDone i with
        | some e => some e.msg
        | none => waitFromAttemptOld value lookup ctxDone fuel (i + 1)

/-- `waitForPropagation` of the older appended variant (main.go 328-367). -/
def waitForPropagationOld (value : Str) (lookup : Nat → Except Str (List Str))
    (ctxDone : Nat → Option CtxErr) : Option Str :=
  waitFromAttemptOld value lookup ctxDone 30 0

theorem attemptConfirms_iff (value : Str) (r : Except Str (List Str)) :
    attemptConfirms value r = true ↔ r = .ok [value] := by
  match r with
  | .error e => simp [attemptConfirms]
  | .ok records =>
      simp only [attemptConfirms, Bool.and_eq_true, beq_iff_eq, Except.ok.injEq]
      constructor
      · rintro ⟨h1, h2⟩
        match records, h1 with
        | [a], _ => simpa using h2
      · rintro rfl; simp [List.headI]

theorem waitFromAttempt_none_iff (value : Str) (lookup : Nat → Except Str (List Str))
    (ctxDone : Nat → Option CtxErr) :
    ∀ (fuel i : Nat), waitFromAttempt value lookup ctxDone fuel i = none ↔
      ∃ k < fuel, lookup (i + k) = .ok [value] ∧
        ∀ j < k, lookup (i + j) ≠ .ok [value] ∧ ctxDone (i + j) = none := by
  intro fuel
  induction fuel with
  | zero =>
      intro i
      simp [waitFromAttempt, timedOutMessage]
  | succ fuel ih =>
      intro i
      simp only [waitFromAttempt]
      by_cases hc : attemptConfirms value (lookup i) = true
      · rw [if_pos hc]
        refine iff_of_true rfl ⟨0, Nat.succ_pos fuel, ?_, ?_⟩
        · simpa using (attemptConfirms_iff value (lookup i)).mp hc
        · intro j hj; exact absurd hj (Nat.not_lt_zero j)
      · rw [if_neg hc]
        have hne : lookup i ≠ .ok [value] := fun h =>
          hc ((attemptConfirms_iff value (lookup i)).mpr h)
        match hd : ctxDone i with
        | some e =>
            simp only [reduceCtorEq, false_iff]
            rintro ⟨k, hk, hok, hprev⟩
            match k with
            | 0 => exact hne (by simpa using hok)
            | k + 1 =>
                have := (hprev 0 (Nat.succ_pos k)).2
                simp only [Nat.add_zero] at this
                rw [hd] at this
                exact Option.noConfusion this
        | none =>
            rw [ih (i + 1)]
            constructor
            · rintro ⟨k, hk, hok, hprev⟩
              refine ⟨k + 1, by omega,
                by rw [show i + (k + 1) = i + 1 + k by omega]; exact hok, ?_⟩
              intro j hj
              match j with
              | 0 => exact ⟨by simpa using hne, by simpa using hd⟩
              | j + 1 =>
                  have := hprev j (by omega)
                  constructor
                  · rw [show i + (j + 1) = i + 1 + j by omega]; exact this.1
                  · rw [show i + (j + 1) = i + 1 + j by omega]; exact this.2
            · rintro ⟨k, hk, hok, hprev⟩
              match k with
              | 0 => exact absurd (by simpa using hok) hne
              | k + 1 =>
                  refine ⟨k, by omega, by rwa [show i + (k + 1) = i + 1 + k by omega] at hok, ?_⟩
                  intro j hj
                  have := hprev (j + 1) (by omega)
                  constructor
                  · rw [show i + 1 + j = i + (j + 1) by omega]; exact this.1
                  · rw [show i + 1 + j = i + (j + 1) by omega]; exact this.2

theorem waitFromAttempt_timeout (value : Str) (lookup : Nat → Except Str (List Str))
    (ctxDone : Nat → Option CtxErr) :
    ∀ (fuel i : Nat),
      (∀ k < fuel, lookup (i + k) ≠ .ok [value] ∧ ctxDone (i + k) = none) →
      waitFromAttempt value lookup ctxDone fuel i = some timedOutMessage := by
  intro fuel
  induction fuel with
  | zero => intro i _; rfl
  | succ fuel ih =>
      intro i h
      have h0 := h 0 (Nat.succ_pos fuel)
      simp only [Nat.add_zero] at h0
      simp only [waitFromAttempt]
      have hnc : attemptConfirms value (lookup i) = false := by
        rw [Bool.eq_false_iff]
        intro hcc
        exact h0.1 ((attemptConfirms_iff value (lookup i)).mp hcc)
      rw [hnc, if_neg (by simp), h0.2]
      apply ih
      intro k hk
      have := h (k + 1) (by omega)
      rwa [show i + (k + 1) = i + 1 + k by omega] at this

theorem waitFromAttempt_cancel (value : Str) (lookup : Nat → Except Str (List Str))
    (ctxDone : Nat → Option CtxErr) :
    ∀ (fuel i m : Nat) (e : CtxErr), m < fuel →
      (∀ j ≤ m, lookup (i + j) ≠ .ok [value]) →
      (∀ j < m, ctxDone (i + j) = none) →
      ctxDone (i + m) = some e →
      waitFromAttempt value lookup ctxDone fuel i = some e.msg := by
  intro fuel
  induction fuel with
  | zero => intro i m e hm; omega
  | succ fuel ih =>
      intro i m e hm hlk hcd hfire
      have h0 : lookup i ≠ .ok [value] := by simpa using hlk 0 (Nat.zero_le m)
      have hnc : attemptConfirms value (lookup i) = false := by
        rw [Bool.eq_false_iff]
        intro hcc
        exact h0 ((attemptConfirms_iff value (lookup i)).mp hcc)
      simp only [waitFromAttempt]
      rw [hnc, if_neg (by simp)]
      match m with
      | 0 =>
          simp only [Nat.add_zero] at hfire
          rw [hfire]
      | m + 1 =>
          have hd0 : ctxDone i = none := by simpa using hcd 0 (Nat.succ_pos m)
          rw [hd0]
          apply ih (i + 1) m e (by omega)
          · intro j hj
            have := hlk (j + 1) (by omega)
            rwa [show i + (j + 1) = i + 1 + j by omega] at this
          · intro j hj
            have := hcd (j + 1) (by omega)
            rwa [show i + (j + 1) = i + 1 + j by omega] at this
          · rwa [show i + 1 + m = i + (m + 1) by omega]

/- ### The DnsHost collaborator, environments, and call traces -/

/-- A go-freedns `Record`; its contents are opaque to this program (it is
only threaded from `GetRecords` into `FindRecordIds`). -/
structure FreednsRecord where
  fields : List (Str × Str)

/-- A Go `map[string]freedns.Record`, as an association list in iteration
order. -/
abbrev RecordsMap := List (Str × FreednsRecord)

/-- One call issued to the `DnsHost` collaborator.  `createRecord n` is the
`n`-th `CreateRecord` call of the run (the arguments are determined by the
run's state). -/
inductive HostCall
  | getDomains
  | getRecords (zoneId : Str)
  | findRecordIds (fqdn : Str)
  | createRecord (n : Nat)
  | deleteRecord (recordId : Str)
deriving DecidableEq

/-- Oracles describing one run's interaction with the outside world: the
result of every external call the program could make, and whether the
overall context is observed as done at each of the source's check points.
`createRecord n` is the result of the `n`-th `CreateRecord` call of the run
(the older variant can call it twice). -/
structure ChallengeEnv where
  getDomains : Except Str (List (Str × Str))
  getRecords : Str → Except Str RecordsMap
  findRecordIds : RecordsMap → Str → List Str × Bool
  createRecord : Nat → Option Str
  deleteRecord : Str → Option Str
  lookupTXT : Nat → Except Str (List Str)
  ctxAfterGetDomains : Option CtxErr
  ctxAfterCreateRecord : Option CtxErr
  ctxBeforePropagation : Option CtxErr
  ctxDoneDuringWait : Nat → Option CtxErr

/-- The message of the distinguished record-not-found error
(main.go line 18). -/
def DeleteRecordNotFoundMessage : Str := str "couldn't find record to delete"

/-- The deletion loop of `Delete` (main.go lines 204-209): delete each found
record id in order, stopping at (and returning) the first failure.  Also
returns the `DeleteRecord` calls issued, in order. -/
def deleteLoop (deleteRecord : Str → Option Str) : List Str → Option Str × List HostCall
  | [] => (none, [])
  | recordId :: rest =>
      match deleteRecord recordId with
      | some e => (some e, [HostCall.deleteRecord recordId])
      | none =>
          let r := deleteLoop deleteRecord rest
          (r.1, HostCall.deleteRecord recordId :: r.2)

/-- `DnsChallenge.Delete` (primary variant, main.go lines 192-212), given
the `LastZoneId` and `LastRecordFQDN` in effect.  Returns the error (or
`none` for success) and the `DnsHost` calls issued, in order. -/
def Delete (env : ChallengeEnv) (zoneId recordFQDN : Str) : Option Str × List HostCall :=
  match env.getRecords zoneId with
  | .error e => (some e, [HostCall.getRecords zoneId])
  | .ok records =>
      let found := env.findRecordIds records recordFQDN
      if found.2 = false then
        (some DeleteRecordNotFoundMessage,
         [HostCall.getRecords zoneId, HostCall.findRecordIds recordFQDN])
      else
        let r := deleteLoop env.deleteRecord found.1
        (r.1, HostCall.getRecords zoneId :: HostCall.findRecordIds recordFQDN :: r.2)

/-- `DnsChallenge.Delete` of the older appended variant (main.go lines
437-453): same as `Delete` except it insists on exactly one found record id
and deletes just it. -/
def DeleteOld (env : ChallengeEnv) (zoneId recordFQDN : Str) : Option Str × List HostCall :=
  match env.getRecords zoneId with
  | .error e => (some e, [HostCall.getRecords zoneId])
  | .ok records =>
      let found := env.findRecordIds records recordFQDN
      if found.2 = false then
        (some DeleteRecordNotFoundMessage,
         [HostCall.getRecords zoneId, HostCall.findRecordIds recordFQDN])
      else if found.1.length ≠ 1 then
        (some (str "expected to find a single record"),
         [HostCall.getRecords zoneId, HostCall.findRecordIds recordFQDN])
      else
        (env.deleteRecord found.1.headI,
         [HostCall.getRecords zoneId, HostCall.findRecordIds recordFQDN,
          HostCall.deleteRecord found.1.headI])

/- ### setup and Create (primary variant, main.go lines 65-105, 158-190) -/

/-- The zone list built at main.go lines 86-89: the Go code allocates a
slice of `len(domains)` empty strings and then appends the map's keys, so
the slice starts with `len(domains)` empty strings. -/
def zonesFrom (domains : List (Str × Str)) : List Str :=
  List.replicate domains.length [] ++ domains.map Prod.fst

/-- The derived challenge state set by `setup`:
`LastZoneId`, `LastRecordName`, `LastRecordFQDN`. -/
structure ChallengeIds where
  zoneId : Str
  recordName : Str
  recordFQDN : Str
deriving DecidableEq

/-- `DnsChallenge.setup` (main.go lines 65-105): fetch the domains map,
check the context, resolve the zone with `getZoneFor` (the empty string is
the fatal `NotFound` sentinel), and derive record name and FQDN. -/
def setup (env : ChallengeEnv) (challengeDomain : Str) : Except Str ChallengeIds :=
  match env.getDomains with
  | .error e => .error e
  | .ok domains =>
      match env.ctxAfterGetDomains with
      | some e => .error e.msg
      | none =>
          let challengeDomainZone := getZoneFor (zonesFrom domains) challengeDomain
          if challengeDomainZone = [] then .error (str "couldn't find zone for domain")
          else .ok ⟨(domains.lookup challengeDomainZone).getD [],
                    recordNameFor challengeDomain challengeDomainZone,
                    recordFQDNFor challengeDomain challengeDomainZone⟩

/-- The tail of `Create` after the cleanup step (main.go lines 169-189):
issue `CreateRecord`, check the context, surface the creation error, check
the context again, then poll for propagation. -/
def createTail (env : ChallengeEnv) (ids : ChallengeIds) (challengeValue : Str)
    (trace : List HostCall) : Except Str (Str × Str) × List HostCall :=
  let err := env.createRecord 0
  let trace := trace ++ [HostCall.createRecord 0]
  match env.ctxAfterCreateRecord with
  | some e => (.error e.msg, trace)
  | none =>
      match err with
      | some e => (.error e, trace)
      | none =>
          match env.ctxBeforePropagation with
          | some e => (.error e.msg, trace)
          | none =>
              match waitForPropagation challengeValue env.lookupTXT env.ctxDoneDuringWait with
              | some e => (.error e, trace)
              | none => (.ok (ids.zoneId, ids.recordFQDN), trace)

/-- `DnsChallenge.Create` (primary variant, main.go lines 158-190): run
`setup`, then a best-effort cleanup `Delete` whose record-not-found outcome
is swallowed (lines 164-167), then the creation/polling tail.  On success
returns the externalized `(LastZoneId, LastRecordFQDN)` pair. -/
def Create (env : ChallengeEnv) (challengeDomain challengeValue : Str) :
    Except Str (Str × Str) × List HostCall :=
  match setup env challengeDomain with
  | .error e => (.error e, [HostCall.getDomains])
  | .ok ids =>
      let del := Delete env ids.zoneId ids.recordFQDN
      let trace := HostCall.getDomains :: del.2
      match del.1 with
      | some e =>
          if e = DeleteRecordNotFoundMessage then createTail env ids challengeValue trace
          else (.error e, trace)
      | none => createTail env ids challengeValue trace

/- ### Create of the older appended variant (main.go lines 318-326, 369-435) -/

/-- `stringStartsWith` (main.go lines 318-326): trim one leading space, then
test whether any of the given strings is a leading part of the result. -/
def stringStartsWith (s : Str) (candidates : List Str) : Bool :=
  let t := if (str " ").isPrefixOf s then s.drop (str " ").length else s
  candidates.any fun p => p.isPrefixOf t

/-- The two provider conflict strings recognised at main.go line 412. -/
def conflictMessages : List Str :=
  [str "You already have another already existent",
   str "You have no more subdomain capacity allocated"]

/-- The tail of the older `Create` after the conflict-recovery decision
(main.go lines 422-434): surface the pending creation error, check the
context, then poll for propagation. -/
def finishOld (env : ChallengeEnv) (challengeValue zoneId recordFQDN : Str)
    (err : Option Str) (trace : List HostCall) : Except Str (Str × Str) × List HostCall :=
  match err with
  | some e => (.error e, trace)
  | none =>
      match env.ctxBeforePropagation with
      | some e => (.error e.msg, trace)
      | none =>
          match waitForPropagationOld challengeValue env.lookupTXT env.ctxDoneDuringWait with
          | some e => (.error e, trace)
          | none => (.ok (zoneId, recordFQDN), trace)

/-- `DnsChallenge.Create` of the older appended variant (main.go lines
369-435): fetch domains, resolve the zone with the strict-comparison
`getZoneForOld`, derive the record name with no equal-zone special case
(line 401), create the record, and on a recognised conflict error delete the
existing record (the deletion error is only logged) and retry the creation
exactly once (lines 411-420). -/
def CreateOld (env : ChallengeEnv) (challengeDomain challengeValue : Str) :
    Except Str (Str × Str) × List HostCall :=
  match env.getDomains with
  | .error e => (.error e, [HostCall.getDomains])
  | .ok domains =>
      match env.ctxAfterGetDomains with
      | some e => (.error e.msg, [HostCall.getDomains])
      | none =>
          let challengeDomainZone := getZoneForOld (zonesFrom domains) challengeDomain
          if challengeDomainZone = [] then
            (.error (str "couldn't find zone for domain"), [HostCall.getDomains])
          else
            let zoneId := (domains.lookup challengeDomainZone).getD []
            let recordName :=
              acmeChallengeLabel ++ '.' :: goTrimSuffix challengeDomain ('.' :: challengeDomainZone)
            let recordFQDN := recordName ++ '.' :: challengeDomainZone
            let err := env.createRecord 0
            let trace := [HostCall.getDomains, HostCall.createRecord 0]
            match env.ctxAfterCreateRecord with
            | some e => (.error e.msg, trace)
            | none =>
                if err.isSome && stringStartsWith (err.getD []) conflictMessages then
                  let del := DeleteOld env zoneId recordFQDN
                  finishOld env challengeValue zoneId recordFQDN (env.createRecord 1)
                    (trace ++ del.2 ++ [HostCall.createRecord 1])
                else
                  finishOld env challengeValue zoneId recordFQDN err trace

/- ### runChallenger (primary variant, main.go lines 214-242) -/

/-- The output emitted on successful creation (main.go line 225):
`zoneId + "," + recordFQDN`. -/
def createOutput (zoneId recordFQDN : Str) : Str := zoneId ++ ',' :: recordFQDN

/-- The malformed-replay-input error message (main.go line 230). -/
def malformedReplayMessage : Str :=
  str "expected CERTBOT_AUTH_OUTPUT to be 2 comma separated values: zoneId,recordName"

/-- `runChallenger` (primary variant, main.go lines 214-242).  An empty
`authScriptOutput` selects create mode: run `Create` and emit the
externalized pair.  A non-empty one selects delete mode: split it on `","`,
fail if that does not give exactly two fields, else use them as
`LastZoneId` and `LastRecordFQDN` for `Delete`.  Returns the emitted output
(success) or the error, with the `DnsHost` calls issued. -/
def runChallenger (env : ChallengeEnv) (challengeDomain recordValue authScriptOutput : Str) :
    Except Str Str × List HostCall :=
  if authScriptOutput = [] then
    match Create env challengeDomain recordValue with
    | (.error e, t) => (.error e, t)
    | (.ok pair, t) => (.ok (createOutput pair.1 pair.2), t)
  else
    match authScriptOutput.splitOn ',' with
    | [zoneId, recordFQDN] =>
        match Delete env zoneId recordFQDN with
        | (some e, t) => (.error e, t)
        | (none, t) => (.ok [], t)
    | _ => (.error malformedReplayMessage, [])

/- ### Claim theorems about the poller -/

theorem createTail_ok_implies (env : ChallengeEnv) (ids : ChallengeIds)
    (challengeValue : Str) (trace : List HostCall) (p : Str × Str)
    (h : (createTail env ids challengeValue trace).1 = .ok p) :
    waitForPropagation challengeValue env.lookupTXT env.ctxDoneDuringWait = none := by
  simp only [createTail] at h
  split at h
  · exact absurd h (by simp)
  · split at h
    · exact absurd h (by simp)
    · split at h
      · exact absurd h (by simp)
      · split at h
        · exact absurd h (by simp)
        · rename_i heq
          exact heq

/-- C3: if all 30 poll attempts pass without the expected value being
observed (and no cancellation fires), the poller returns the `TimedOut`
error, which is distinct from both context-cancellation outcomes; and
`Create` returns success only if some poll attempt returned exactly the
expected TXT value. -/
theorem create_success_requires_confirmation (env : ChallengeEnv)
    (challengeDomain challengeValue : Str) :
    ((∀ i < 30, env.lookupTXT i ≠ .ok [challengeValue] ∧ env.ctxDoneDuringWait i = none) →
      waitForPropagation challengeValue env.lookupTXT env.ctxDoneDuringWait
        = some timedOutMessage) ∧
    (∀ e : CtxErr, timedOutMessage ≠ e.msg) ∧
    (∀ p, (Create env challengeDomain challengeValue).1 = .ok p →
      ∃ i < 30, env.lookupTXT i = .ok [challengeValue]) ∧
    (∀ ids e, setup env challengeDomain = .ok ids →
      ((Delete env ids.zoneId ids.recordFQDN).1 = some DeleteRecordNotFoundMessage ∨
        (Delete env ids.zoneId ids.recordFQDN).1 = none) →
      env.ctxAfterCreateRecord = none → env.createRecord 0 = none →
      env.ctxBeforePropagation = none →
      waitForPropagation challengeValue env.lookupTXT env.ctxDoneDuringWait = some e →
      (Create env challengeDomain challengeValue).1 = .error e) := by
  refine ⟨?_, ?_, ?_, ?_⟩
  · intro h
    rw [waitForPropagation]
    apply waitFromAttempt_timeout
    intro k hk
    simpa using h k hk
  · intro e; cases e <;> decide
  · intro p h
    have hpoll : waitForPropagation challengeValue env.lookupTXT env.ctxDoneDuringWait
        = none := by
      simp only [Create] at h
      split at h
      · exact absurd h (by simp)
      · split at h
        · split at h
          · exact createTail_ok_implies _ _ _ _ _ h
          · exact absurd h (by simp)
        · exact createTail_ok_implies _ _ _ _ _ h
    rw [waitForPropagation] at hpoll
    obtain ⟨k, hk, hok, -⟩ :=
      (waitFromAttempt_none_iff challengeValue env.lookupTXT env.ctxDoneDuringWait 30 0).mp hpoll
    exact ⟨k, hk, by simpa using hok⟩
  · intro ids e hsetup hdel hctx2 hcr0 hctx3 hpoll
    have hct : ∀ t, (createTail env ids challengeValue t).1 = .error e := by
      intro t
      simp only [createTail, hctx2, hcr0, hctx3, hpoll]
    rcases hdel with h | h
    · simp only [Create, hsetup, h, if_pos rfl]
      exact hct _
    · simp only [Create, hsetup, h]
      exact hct _

/-- Witness for C3: with every lookup failing and no cancellation, the
poller returns the timeout error. -/
theorem create_success_requires_confirmation_witness :
    waitForPropagation (str "tok") (fun _ => .error (str "lookup failed")) (fun _ => none)
      = some timedOutMessage :=
  (create_success_requires_confirmation
      { getDomains := .ok []
        getRecords := fun _ => .ok []
        findRecordIds := fun _ _ => ([], false)
        createRecord := fun _ => none
        deleteRecord := fun _ => none
        lookupTXT := fun _ => .error (str "lookup failed")
        ctxAfterGetDomains := none
        ctxAfterCreateRecord := none
        ctxBeforePropagation := none
        ctxDoneDuringWait := fun _ => none }
      (str "example.com") (str "tok")).1
    (by intro i hi; exact ⟨by simp, rfl⟩)

/-- C6: a poll attempt is terminal success exactly when the lookup returned
one TXT value equal to the expected one; the whole poll succeeds exactly
when some attempt among the 30 does so after earlier attempts that neither
succeeded nor were cancelled; in particular a transient lookup error on
attempt 0 followed by a correct-value lookup on attempt 1 still yields
overall success. -/
theorem pollAttempt_classification (value : Str)
    (lookup : Nat → Except Str (List Str)) (ctxDone : Nat → Option CtxErr) :
    (∀ r, attemptConfirms value r = true ↔ r = .ok [value]) ∧
    (waitForPropagation value lookup ctxDone = none ↔
      ∃ i < 30, lookup i = .ok [value] ∧
        ∀ j < i, lookup j ≠ .ok [value] ∧ ctxDone j = none) ∧
    (∀ e, lookup 0 = .error e → lookup 1 = .ok [value] → ctxDone 0 = none →
      waitForPropagation value lookup ctxDone = none) ∧
    (∀ fuel i, lookup i ≠ .ok [value] → ctxDone i = none →
      waitFromAttempt value lookup ctxDone (fuel + 1) i
        = waitFromAttempt value lookup ctxDone fuel (i + 1)) := by
  refine ⟨attemptConfirms_iff value, ?_, ?_, ?_⟩
  · have h := waitFromAttempt_none_iff value lookup ctxDone 30 0
    simpa using h
  · intro e h0 h1 hc0
    rw [waitForPropagation, waitFromAttempt_none_iff]
    refine ⟨1, by omega, by simpa using h1, ?_⟩
    intro j hj
    have hj0 : j = 0 := by omega
    subst hj0
    exact ⟨by simp [h0], by simpa using hc0⟩
  · intro fuel i hne hcd
    have hnc : attemptConfirms value (lookup i) = false := by
      rw [Bool.eq_false_iff]
      intro hcc
      exact hne ((attemptConfirms_iff value (lookup i)).mp hcc)
    simp only [waitFromAttempt, hnc, hcd]
    rw [if_neg (by simp)]

/-- Witness for C6: attempt 0 fails transiently, attempt 1 returns the
expected value, and the poll succeeds. -/
theorem pollAttempt_classification_witness :
    waitForPropagation (str "tok")
      (fun i => if i = 0 then .error (str "transient") else .ok [str "tok"])
      (fun _ => none) = none :=
  (pollAttempt_classification (str "tok")
      (fun i => if i = 0 then .error (str "transient") else .ok [str "tok"])
      (fun _ => none)).2.2.1
    (str "transient") rfl rfl rfl

/- ### C7: the retry wait also runs after the final attempt -/

/-- A lookup oracle whose every attempt fails with the resolver's
record-not-found error. -/
def lookupAlwaysMissing : Nat → Except Str (List Str) :=
  fun _ => .error (str "no such host")

/-- A context oracle whose deadline fires only during the retry wait that
follows the 30th (final) poll attempt. -/
def cancelDuringFinalWait : Nat → Option CtxErr :=
  fun i => if i = 29 then some CtxErr.deadlineExceeded else none

/-- Counterexample to C7 as stated: the poller does wait (interruptibly)
after the final attempt too.  With every lookup failing and the deadline
firing only during the wait that follows attempt 29 — i.e. with no wait
between consecutive attempts ever interrupted — the loop returns the
cancellation error instead of the `TimedOut` that "no wait after the final
attempt" would imply (the `select` at main.go lines 147-152 runs on every
iteration, including the last). -/
theorem pollWait_after_final_attempt_counterexample :
    waitForPropagation (str "tok") lookupAlwaysMissing cancelDuringFinalWait
      = some CtxErr.deadlineExceeded.msg ∧
    some CtxErr.deadlineExceeded.msg ≠ some timedOutMessage := by
  constructor
  · rfl
  · decide

/-- C7 (amended): the poller waits the fixed delay after every attempt,
including the final one; each wait is interruptible — if cancellation fires
during the wait after attempt `m` (no earlier attempt having succeeded or
been cancelled), the loop aborts immediately with the cancellation error,
an outcome distinct from `TimedOut`; `TimedOut` is returned only when all
30 attempts and all 30 waits pass uninterrupted without confirmation. -/
theorem pollWait_interruptible_every_attempt (value : Str)
    (lookup : Nat → Except Str (List Str)) (ctxDone : Nat → Option CtxErr)
    (m : Nat) (e : CtxErr) :
    (m < 30 → (∀ j ≤ m, lookup j ≠ .ok [value]) → (∀ j < m, ctxDone j = none) →
      ctxDone m = some e →
      waitForPropagation value lookup ctxDone = some e.msg ∧ e.msg ≠ timedOutMessage) ∧
    ((∀ i < 30, lookup i ≠ .ok [value] ∧ ctxDone i = none) →
      waitForPropagation value lookup ctxDone = some timedOutMessage) := by
  constructor
  · intro hm hlk hcd hfire
    constructor
    · rw [waitForPropagation]
      apply waitFromAttempt_cancel value lookup ctxDone 30 0 m e hm
      · intro j hj; simpa using hlk j hj
      · intro j hj; simpa using hcd j hj
      · simpa using hfire
    · cases e <;> decide
  · intro h
    rw [waitForPropagation]
    apply waitFromAttempt_timeout
    intro k hk
    simpa using h k hk

/-- Witness for the amended C7: cancellation firing during the wait after
attempt 5 aborts the poll with the cancellation error. -/
theorem pollWait_interruptible_every_attempt_witness :
    waitForPropagation (str "tok") (fun _ => .error (str "lookup failed"))
        (fun i => if i = 5 then some CtxErr.canceled else none)
      = some CtxErr.canceled.msg ∧
    CtxErr.canceled.msg ≠ timedOutMessage :=
  (pollWait_interruptible_every_attempt (str "tok")
      (fun _ => .error (str "lookup failed"))
      (fun i => if i = 5 then some CtxErr.canceled else none) 5 CtxErr.canceled).1
    (by omega)
    (by intro j hj; simp)
    (by intro j hj; simp; omega)
    (by simp)

/- ### Claim theorems about Delete and Create's cleanup step -/

theorem deleteLoop_all_ok (f : Str → Option Str) :
    ∀ ids : List Str, (∀ rid ∈ ids, f rid = none) →
      deleteLoop f ids = (none, ids.map HostCall.deleteRecord) := by
  intro ids
  induction ids with
  | nil => intro _; rfl
  | cons a rest ih =>
      intro h
      have ha : f a = none := h a (List.mem_cons_self a rest)
      simp only [deleteLoop, ha, List.map_cons]
      rw [ih fun x hx => h x (List.mem_cons_of_mem _ hx)]

theorem deleteLoop_first_failure (f : Str → Option Str) (e : Str) :
    ∀ (pre : List Str) (bad : Str) (rest : List Str),
      (∀ rid ∈ pre, f rid = none) → f bad = some e →
      deleteLoop f (pre ++ bad :: rest)
        = (some e, (pre ++ [bad]).map HostCall.deleteRecord) := by
  intro pre
  induction pre with
  | nil =>
      intro bad rest _ hbad
      simp [deleteLoop, hbad]
  | cons a p ih =>
      intro bad rest hpre hbad
      have ha : f a = none := hpre a (List.mem_cons_self a p)
      simp only [List.cons_append, deleteLoop, ha, List.map_cons, List.append_eq]
      rw [ih bad rest (fun x hx => hpre x (List.mem_cons_of_mem _ hx)) hbad]

/-- C5: with the collaborator reporting no matching record, `Delete` fails
with the distinguished record-not-found error; with matching record ids
reported, it deletes them in order — returning success (having issued one
`DeleteRecord` per id, in order) when all deletions succeed, and stopping
at the first failing id, surfacing that error without attempting the
remaining ids. -/
theorem Delete_matching_records (env : ChallengeEnv) (zoneId recordFQDN : Str)
    (records : RecordsMap) (matchIds : List Str)
    (hrec : env.getRecords zoneId = .ok records) :
    (env.findRecordIds records recordFQDN = (matchIds, false) →
      (Delete env zoneId recordFQDN).1 = some DeleteRecordNotFoundMessage) ∧
    (env.findRecordIds records recordFQDN = (matchIds, true) →
      ((∀ rid ∈ matchIds, env.deleteRecord rid = none) →
        Delete env zoneId recordFQDN
          = (none, HostCall.getRecords zoneId :: HostCall.findRecordIds recordFQDN ::
              matchIds.map HostCall.deleteRecord)) ∧
      (∀ (pre : List Str) (bad : Str) (rest : List Str) (e : Str),
        matchIds = pre ++ bad :: rest →
        (∀ rid ∈ pre, env.deleteRecord rid = none) →
        env.deleteRecord bad = some e →
        Delete env zoneId recordFQDN
          = (some e, HostCall.getRecords zoneId :: HostCall.findRecordIds recordFQDN ::
              (pre ++ [bad]).map HostCall.deleteRecord))) := by
  constructor
  · intro hfind
    simp [Delete, hrec, hfind]
  · intro hfind
    constructor
    · intro hall
      simp only [Delete, hrec, hfind]
      rw [deleteLoop_all_ok env.deleteRecord matchIds hall]
      simp
    · intro pre bad rest e hsplit hpre hbad
      simp only [Delete, hrec, hfind]
      rw [hsplit, deleteLoop_first_failure env.deleteRecord e pre bad rest hpre hbad]
      simp

/-- A concrete environment for the C5 witness: three matching record ids,
the second of which fails to delete. -/
def envDeleteDemo : ChallengeEnv where
  getDomains := .ok []
  getRecords := fun _ => .ok []
  findRecordIds := fun _ _ => ([str "r1", str "r2", str "r3"], true)
  createRecord := fun _ => none
  deleteRecord := fun rid => if rid = str "r2" then some (str "boom") else none
  lookupTXT := fun _ => .error (str "nx")
  ctxAfterGetDomains := none
  ctxAfterCreateRecord := none
  ctxBeforePropagation := none
  ctxDoneDuringWait := fun _ => none

/-- Witness for C5: the deletion stops at the failing second id, surfaces
its error, and never attempts the third id. -/
theorem Delete_matching_records_witness :
    Delete envDeleteDemo (str "z1") (str "f.example.com")
      = (some (str "boom"),
         [HostCall.getRecords (str "z1"), HostCall.findRecordIds (str "f.example.com"),
          HostCall.deleteRecord (str "r1"), HostCall.deleteRecord (str "r2")]) := by
  have h := ((Delete_matching_records envDeleteDemo (str "z1") (str "f.example.com")
      [] [str "r1", str "r2", str "r3"] rfl).2 rfl).2
      [str "r1"] (str "r2") [str "r3"] (str "boom") rfl
      (by intro rid hrid; simp at hrid; subst hrid; rfl) rfl
  rw [h]
  rfl

theorem deleteLoop_trace_deleteRecord (f : Str → Option Str) :
    ∀ (ids : List Str), ∀ c ∈ (deleteLoop f ids).2, ∃ rid, c = HostCall.deleteRecord rid := by
  intro ids
  induction ids with
  | nil => intro c hc; simp [deleteLoop] at hc
  | cons a rest ih =>
      intro c hc
      simp only [deleteLoop] at hc
      match hf : f a with
      | some e =>
          rw [hf] at hc
          simp at hc
          exact ⟨a, hc⟩
      | none =>
          rw [hf] at hc
          simp at hc
          rcases hc with rfl | hc
          · exact ⟨a, rfl⟩
          · exact ih c hc

theorem delete_trace_no_createRecord (env : ChallengeEnv) (zoneId recordFQDN : Str) (n : Nat) :
    HostCall.createRecord n ∉ (Delete env zoneId recordFQDN).2 := by
  intro hmem
  simp only [Delete] at hmem
  split at hmem
  · simp at hmem
  · split at hmem
    · simp at hmem
    · simp only [List.mem_cons] at hmem
      rcases hmem with h | h | h
      · exact HostCall.noConfusion h
      · exact HostCall.noConfusion h
      · obtain ⟨rid, hrid⟩ := deleteLoop_trace_deleteRecord env.deleteRecord _ _ h
        exact HostCall.noConfusion hrid

theorem createTail_trace (env : ChallengeEnv) (ids : ChallengeIds)
    (challengeValue : Str) (trace : List HostCall) :
    (createTail env ids challengeValue trace).2 = trace ++ [HostCall.createRecord 0] := by
  simp only [createTail]
  split
  · rfl
  · split
    · rfl
    · split
      · rfl
      · split <;> rfl

/-- C8: during `Create`'s pre-creation cleanup, a record-not-found outcome
from the `Delete` attempt is swallowed and `Create` goes on to issue the
`CreateRecord` call, while any other cleanup error is returned as
`Create`'s result and no `CreateRecord` call is ever issued. -/
theorem create_cleanup_handling (env : ChallengeEnv) (challengeDomain challengeValue : Str)
    (ids : ChallengeIds) (hsetup : setup env challengeDomain = .ok ids) :
    (∀ e, (Delete env ids.zoneId ids.recordFQDN).1 = some e →
      e ≠ DeleteRecordNotFoundMessage →
      (Create env challengeDomain challengeValue).1 = .error e ∧
      ∀ n, HostCall.createRecord n ∉ (Create env challengeDomain challengeValue).2) ∧
    ((Delete env ids.zoneId ids.recordFQDN).1 = some DeleteRecordNotFoundMessage ∨
      (Delete env ids.zoneId ids.recordFQDN).1 = none →
      HostCall.createRecord 0 ∈ (Create env challengeDomain challengeValue).2) := by
  constructor
  · intro e hdel hne
    have hC : Create env challengeDomain challengeValue
        = (.error e, HostCall.getDomains :: (Delete env ids.zoneId ids.recordFQDN).2) := by
      simp only [Create, hsetup, hdel, if_neg hne]
    rw [hC]
    refine ⟨rfl, ?_⟩
    intro n hmem
    simp only [List.mem_cons] at hmem
    rcases hmem with h | h
    · exact HostCall.noConfusion h
    · exact delete_trace_no_createRecord env ids.zoneId ids.recordFQDN n h
  · intro hdel
    have hC : (Create env challengeDomain challengeValue).2
        = (HostCall.getDomains :: (Delete env ids.zoneId ids.recordFQDN).2)
            ++ [HostCall.createRecord 0] := by
      rcases hdel with h | h
      · simp only [Create, hsetup, h, if_pos rfl]
        exact createTail_trace env ids challengeValue _
      · simp only [Create, hsetup, h]
        exact createTail_trace env ids challengeValue _
    rw [hC]
    simp

/-- A concrete environment for the C8 witness: `setup` succeeds but the
cleanup `Delete`'s `GetRecords` call fails with an unexpected error. -/
def envCleanupDemo : ChallengeEnv where
  getDomains := .ok [(str "example.com", str "z1")]
  getRecords := fun _ => .error (str "provider unavailable")
  findRecordIds := fun _ _ => ([], false)
  createRecord := fun _ => none
  deleteRecord := fun _ => none
  lookupTXT := fun _ => .error (str "nx")
  ctxAfterGetDomains := none
  ctxAfterCreateRecord := none
  ctxBeforePropagation := none
  ctxDoneDuringWait := fun _ => none

/-- Witness for C8: an unexpected cleanup error aborts `Create` before any
`CreateRecord` call. -/
theorem create_cleanup_handling_witness :
    (Create envCleanupDemo (str "example.com") (str "tok")).1
      = .error (str "provider unavailable") ∧
    HostCall.createRecord 0 ∉ (Create envCleanupDemo (str "example.com") (str "tok")).2 := by
  have h := (create_cleanup_handling envCleanupDemo (str "example.com") (str "tok")
      ⟨str "z1", str "_acme-challenge", str "_acme-challenge.example.com"⟩ rfl).1
      (str "provider unavailable") rfl (by decide)
  exact ⟨h.1, h.2 0⟩


/- ### C4: conflict recovery in the older variant's Create -/

theorem finishOld_trace (env : ChallengeEnv) (challengeValue zoneId recordFQDN : Str)
    (err : Option Str) (t : List HostCall) :
    (finishOld env challengeValue zoneId recordFQDN err t).2 = t := by
  simp only [finishOld]
  split
  · rfl
  · split
    · rfl
    · split <;> rfl

theorem finishOld_some (env : ChallengeEnv) (challengeValue zoneId recordFQDN e : Str)
    (t : List HostCall) :
    (finishOld env challengeValue zoneId recordFQDN (some e) t).1 = .error e := rfl

/-- C4: when the first `CreateRecord` call fails with an error matching one
of the two recognised conflict strings, `CreateOld` performs exactly one
delete-then-retry cycle — its call trace is the initial calls, then the
single `DeleteOld` cycle's calls, then exactly one retried `CreateRecord`
(call number 1) and nothing after it — and a failure of the retried
creation is returned to the caller unchanged; when the error does not match
either conflict string, it is returned unchanged with no delete and no
retry ever issued. -/
theorem createOld_conflict_retry (env : ChallengeEnv)
    (challengeDomain challengeValue : Str) (domains : List (Str × Str))
    (zone zoneId recordFQDN : Str) (e0 : Str)
    (hdom : env.getDomains = .ok domains)
    (hctx1 : env.ctxAfterGetDomains = none)
    (hzone : zone = getZoneForOld (zonesFrom domains) challengeDomain)
    (hz : zone ≠ [])
    (hzid : zoneId = (domains.lookup zone).getD [])
    (hfq : recordFQDN
      = (acmeChallengeLabel ++ '.' :: goTrimSuffix challengeDomain ('.' :: zone)) ++ '.' :: zone)
    (hctx2 : env.ctxAfterCreateRecord = none)
    (hcr0 : env.createRecord 0 = some e0) :
    (stringStartsWith e0 conflictMessages = true →
      (CreateOld env challengeDomain challengeValue).2
        = [HostCall.getDomains, HostCall.createRecord 0]
            ++ (DeleteOld env zoneId recordFQDN).2 ++ [HostCall.createRecord 1] ∧
      (∀ e1, env.createRecord 1 = some e1 →
        (CreateOld env challengeDomain challengeValue).1 = .error e1)) ∧
    (stringStartsWith e0 conflictMessages = false →
      (CreateOld env challengeDomain challengeValue).1 = .error e0 ∧
      (CreateOld env challengeDomain challengeValue).2
        = [HostCall.getDomains, HostCall.createRecord 0]) := by
  subst hzone hzid hfq
  constructor
  · intro hconf
    have hC : CreateOld env challengeDomain challengeValue
        = finishOld env challengeValue
            ((domains.lookup (getZoneForOld (zonesFrom domains) challengeDomain)).getD [])
            ((acmeChallengeLabel
                ++ '.' :: goTrimSuffix challengeDomain
                      ('.' :: getZoneForOld (zonesFrom domains) challengeDomain))
              ++ '.' :: getZoneForOld (zonesFrom domains) challengeDomain)
            (env.createRecord 1)
            ([HostCall.getDomains, HostCall.createRecord 0]
              ++ (DeleteOld env
                    ((domains.lookup (getZoneForOld (zonesFrom domains) challengeDomain)).getD [])
                    ((acmeChallengeLabel
                        ++ '.' :: goTrimSuffix challengeDomain
                              ('.' :: getZoneForOld (zonesFrom domains) challengeDomain))
                      ++ '.' :: getZoneForOld (zonesFrom domains) challengeDomain)).2
                  ++ [HostCall.createRecord 1]) := by
      simp only [CreateOld, hdom, hctx1, if_neg hz, hcr0, hctx2, Option.isSome_some,
        Option.getD_some, Bool.true_and, hconf, if_true]
    constructor
    · rw [hC, finishOld_trace]
    · intro e1 he1
      rw [hC, he1, finishOld_some]
  · intro hconf
    have hC : CreateOld env challengeDomain challengeValue
        = finishOld env challengeValue
            ((domains.lookup (getZoneForOld (zonesFrom domains) challengeDomain)).getD [])
            ((acmeChallengeLabel
                ++ '.' :: goTrimSuffix challengeDomain
                      ('.' :: getZoneForOld (zonesFrom domains) challengeDomain))
              ++ '.' :: getZoneForOld (zonesFrom domains) challengeDomain)
            (some e0)
            [HostCall.getDomains, HostCall.createRecord 0] := by
      simp only [CreateOld, hdom, hctx1, if_neg hz, hcr0, hctx2, Option.isSome_some,
        Option.getD_some, Bool.true_and, hconf]
      rw [if_neg (by simp)]
    exact ⟨by rw [hC, finishOld_some], by rw [hC, finishOld_trace]⟩

/-- A concrete environment for the C4 witness: the first `CreateRecord`
fails with a recognised conflict string, one record exists to delete, and
the retried creation fails too. -/
def envConflictDemo : ChallengeEnv where
  getDomains := .ok [(str "example.com", str "z1")]
  getRecords := fun _ => .ok [(str "r1", ⟨[]⟩)]
  findRecordIds := fun _ _ => ([str "r1"], true)
  createRecord := fun n =>
    if n = 0 then some (str " You already have another already existent record")
    else some (str "still failing")
  deleteRecord := fun _ => none
  lookupTXT := fun _ => .error (str "nx")
  ctxAfterGetDomains := none
  ctxAfterCreateRecord := none
  ctxBeforePropagation := none
  ctxDoneDuringWait := fun _ => none

/-- Witness for C4: a conflict on the first creation triggers one delete
cycle and one retried creation, whose failure is surfaced unchanged. -/
theorem createOld_conflict_retry_witness :
    (CreateOld envConflictDemo (str "s.example.com") (str "tok")).1
      = .error (str "still failing") ∧
    (CreateOld envConflictDemo (str "s.example.com") (str "tok")).2
      = [HostCall.getDomains, HostCall.createRecord 0,
         HostCall.getRecords (str "z1"),
         HostCall.findRecordIds (str "_acme-challenge.s.example.com"),
         HostCall.deleteRecord (str "r1"), HostCall.createRecord 1] := by
  have h := (createOld_conflict_retry envConflictDemo (str "s.example.com") (str "tok")
      [(str "example.com", str "z1")] (str "example.com") (str "z1")
      (str "_acme-challenge.s.example.com")
      (str " You already have another already existent record")
      rfl rfl (by decide) (by decide) (by decide) (by decide) rfl rfl).1 (by decide)
  refine ⟨h.2 (str "still failing") rfl, ?_⟩
  rw [h.1]
  rfl

/- ### C9: replay-input parsing and the create-output round trip -/

/-- C9: in delete mode (non-empty replay input), a replay input that does
not split on `","` into exactly two fields fails with the malformed-input
error before any `DnsHost` call; one that does split into `[a, b]` uses `a`
as the zone id and `b` as the record FQDN for `Delete`, whose outcome it
returns; and the `zoneId,recordFQDN` line emitted by a successful create
parses back to exactly those two fields whenever neither contains a
comma. -/
theorem replay_input_round_trip (env : ChallengeEnv)
    (challengeDomain recordValue out a b : Str) :
    (out ≠ [] → (out.splitOn ',').length ≠ 2 →
      runChallenger env challengeDomain recordValue out
        = (.error malformedReplayMessage, [])) ∧
    (out ≠ [] → out.splitOn ',' = [a, b] →
      (runChallenger env challengeDomain recordValue out).2 = (Delete env a b).2 ∧
      ((Delete env a b).1 = none →
        (runChallenger env challengeDomain recordValue out).1 = .ok []) ∧
      (∀ e, (Delete env a b).1 = some e →
        (runChallenger env challengeDomain recordValue out).1 = .error e)) ∧
    (',' ∉ a → ',' ∉ b → (createOutput a b).splitOn ',' = [a, b]) ∧
    (∀ p t, Create env challengeDomain recordValue = (.ok p, t) →
      runChallenger env challengeDomain recordValue []
        = (.ok (createOutput p.1 p.2), t)) := by
  refine ⟨?_, ?_, ?_, ?_⟩
  · intro hne hlen
    simp only [runChallenger, if_neg hne]
    cases hs : out.splitOn ',' with
    | nil => rfl
    | cons x xs =>
        cases xs with
        | nil => rfl
        | cons y ys =>
            cases ys with
            | nil =>
                rw [hs] at hlen
                simp at hlen
            | cons z zs => rfl
  · intro hne hs
    have hrun : runChallenger env challengeDomain recordValue out
        = match Delete env a b with
          | (some e, t) => (.error e, t)
          | (none, t) => (.ok [], t) := by
      simp only [runChallenger, if_neg hne, hs]
    rcases hDel : Delete env a b with ⟨r, t⟩
    rw [hDel] at hrun
    cases r with
    | none =>
        rw [hrun]
        exact ⟨rfl, fun _ => rfl, fun e he => absurd he (by simp)⟩
    | some e0 =>
        rw [hrun]
        refine ⟨rfl, ?_, ?_⟩
        · intro he; exact absurd he (by simp)
        · intro e he
          have he0 : e0 = e := by simpa using he
          subst he0
          rfl
  · intro ha hb
    show (a ++ ',' :: b).splitOn ',' = [a, b]
    rw [List.splitOn, List.splitOnP_first _ _
        (fun x hx => by simp only [beq_iff_eq, decide_eq_true_eq]; exact fun h => ha (h ▸ hx))
        ',' (by simp)]
    rw [List.splitOnP_eq_single _ _
        (fun x hx => by simp only [beq_iff_eq, decide_eq_true_eq]; exact fun h => hb (h ▸ hx))]
  · intro p t hC
    simp only [runChallenger, hC]
    simp

/-- A concrete environment for the C9 witness. -/
def envReplayDemo : ChallengeEnv where
  getDomains := .ok []
  getRecords := fun _ => .ok []
  findRecordIds := fun _ _ => ([], false)
  createRecord := fun _ => none
  deleteRecord := fun _ => none
  lookupTXT := fun _ => .error (str "nx")
  ctxAfterGetDomains := none
  ctxAfterCreateRecord := none
  ctxBeforePropagation := none
  ctxDoneDuringWait := fun _ => none

/-- Witness for C9: a one-field replay input fails with the malformed-input
error and an empty call trace, and a comma-free pair round-trips through
the emitted `zoneId,recordFQDN` line. -/
theorem replay_input_round_trip_witness :
    runChallenger envReplayDemo (str "example.com") (str "tok") (str "z1")
      = (.error malformedReplayMessage, []) ∧
    (createOutput (str "z1") (str "_acme-challenge.example.com")).splitOn ','
      = [str "z1", str "_acme-challenge.example.com"] := by
  constructor
  · exact (replay_input_round_trip envReplayDemo (str "example.com") (str "tok")
      (str "z1") [] []).1 (by decide) (by decide)
  · exact (replay_input_round_trip envReplayDemo (str "example.com") (str "tok")
      (str "z1") (str "z1") (str "_acme-challenge.example.com")).2.2.1
      (by decide) (by decide)

/- ### C10: zone matching ignores DNS label boundaries -/

/-- C10: zone matching is by raw string suffix: with zones `{ample.com}`
and domain `example.com`, `getZoneFor` returns `ample.com`, which neither
equals the domain nor is preceded by `.` in it; the record-name derivation
then strips nothing (`.ample.com` is not a suffix of `example.com`),
producing record name `_acme-challenge.example.com` and record FQDN
`_acme-challenge.example.com.ample.com`, which is not a name under the
challenge domain. -/
theorem rawSuffix_crossLabel_match :
    getZoneFor [str "ample.com"] (str "example.com") = str "ample.com" ∧
    str "ample.com" ≠ str "example.com" ∧
    ¬ ('.' :: str "ample.com") <:+ str "example.com" ∧
    goTrimSuffix (str "example.com") ('.' :: str "ample.com") = str "example.com" ∧
    recordNameFor (str "example.com") (str "ample.com")
      = str "_acme-challenge.example.com" ∧
    recordFQDNFor (str "example.com") (str "ample.com")
      = str "_acme-challenge.example.com.ample.com" ∧
    ¬ ('.' :: str "example.com") <:+ recordFQDNFor (str "example.com") (str "ample.com") := by
  refine ⟨?_, ?_, ?_, ?_, ?_, ?_, ?_⟩ <;> decide
